import Mathlib

/-!
Shallow embedding of the form-field-extractor package (helper.js + index.js,
the variant with statusCallback support) together with proofs about the
spec's claims.  DOM state is modelled explicitly as a list of elements;
remote services (LLM extraction, TTS synthesis/playback) are modelled as
oracle outcomes supplied per call, mirroring exactly the control flow the
JavaScript performs on those outcomes.
-/

/-- A JavaScript value stored in the extracted/merged JSON records:
either a string or an array of strings (checkbox selections). -/
inductive JsVal where
  | str : String → JsVal
  | arr : List String → JsVal
deriving DecidableEq, Repr

/-- JS truthiness for the values this package manipulates: the empty string
is falsy; every array (even empty) is truthy. -/
def JsVal.truthy : JsVal → Bool
  | .str s => s ≠ ""
  | .arr _ => true

/-- Evaluation of `x || fallback` on an optional JS record member: a missing member
(`undefined`) and a falsy value both select the fallback. -/
def jsOrVal (v : Option JsVal) (fallback : JsVal) : JsVal :=
  match v with
  | some w => if w.truthy then w else fallback
  | none => fallback

/-- A JSON object, as an insertion-ordered association list with unique keys
maintained by `recSet` (JS object assignment semantics). -/
abbrev Rec := List (String × JsVal)

/-- Member access `obj[k]`: first binding wins (keys are unique). -/
def recGet : Rec → String → Option JsVal
  | [], _ => none
  | (k', v) :: t, k => if k' = k then some v else recGet t k

/-- Member assignment `obj[k] = v`: replaces an existing binding in place,
otherwise appends (JS object key-insertion order). -/
def recSet : Rec → String → JsVal → Rec
  | [], k, v => [(k, v)]
  | (k', v') :: t, k, v => if k' = k then (k, v) :: t else (k', v') :: recSet t k v

/-- One live form element: id ("" when absent), group name, input type
("radio", "checkbox", "text", ...), current value, checked flag, and the
inline border style. -/
structure Elem where
  id : String
  name : String
  type : String
  value : String
  checked : Bool
  border : String
deriving DecidableEq, Repr

/-- The live form, in document order. -/
abbrev Dom := List Elem

/-- Lookup `document.getElementById`: first element with the given id. -/
def getElementById : Dom → String → Option Elem
  | [], _ => none
  | el :: t, i => if el.id = i then some el else getElementById t i

/-- Lookup `document.getElementsByName`. -/
def getElementsByName (dom : Dom) (n : String) : List Elem :=
  dom.filter (fun el => el.name = n)

/-- Query for the checkboxes of a name group. -/
def checkboxesByName (dom : Dom) (n : String) : List Elem :=
  dom.filter (fun el => el.name = n && el.type = "checkbox")

/-- Mutate the element `getElementById` resolves to (the first with that id). -/
def updateById : Dom → String → (Elem → Elem) → Dom
  | [], _, _ => []
  | el :: t, i, f => if el.id = i then f el :: t else el :: updateById t i f

/-- Mutate every element of a name group (the `forEach` over a NodeList). -/
def updateByName (dom : Dom) (n : String) (f : Elem → Elem) : Dom :=
  dom.map (fun el => if el.name = n then f el else el)

/-- Mutate every checkbox of a name group. -/
def updateCheckboxesByName (dom : Dom) (n : String) (f : Elem → Elem) : Dom :=
  dom.map (fun el => if el.name = n && el.type = "checkbox" then f el else el)

/-- One catalog entry produced by `extractFormIds`: `{ id, value }`. -/
structure FormField where
  id : String
  value : String
deriving DecidableEq, Repr

/-- Reader `extractFormIds`: every input with a truthy (non-empty) id, with its
current value, in document order.  (The form-scoping `querySelectorAll`
is left implicit: the modelled `Dom` is exactly the form's inputs.) -/
def extractFormIds (dom : Dom) : List FormField :=
  (dom.filter (fun el => el.id ≠ "")).map (fun el => { id := el.id, value := el.value })

/-- Fold of the radio group scan, starting from the empty string: the last
checked radio wins. -/
def lastCheckedValue (group : List Elem) : String :=
  group.foldl (fun acc r => if r.checked then r.value else acc) ""

/-- Values of the checked checkboxes, in document order. -/
def checkedValues (boxes : List Elem) : List String :=
  (boxes.filter (fun b => b.checked)).map (fun b => b.value)

/-- One iteration of `mergeWithExistingData`'s `formData.forEach`. -/
def mergeStep (dom : Dom) (extractedJson : Rec) (mergedJson : Rec) (field : FormField) : Rec :=
  match getElementById dom field.id with
  | none => mergedJson
  | some inputElement =>
    match inputElement.type with
    | "radio" =>
        let selectedRadio := jsOrVal (recGet extractedJson field.id)
          (JsVal.str (lastCheckedValue (getElementsByName dom inputElement.name)))
        recSet mergedJson inputElement.name selectedRadio
    | "checkbox" =>
        let selectedCheckboxes := jsOrVal (recGet extractedJson field.id)
          (JsVal.arr (checkedValues (checkboxesByName dom inputElement.name)))
        recSet mergedJson inputElement.name selectedCheckboxes
    | _ =>
        recSet mergedJson field.id
          (jsOrVal (recGet extractedJson field.id) (JsVal.str inputElement.value))

/-- Merge `mergeWithExistingData(formData, extractedJson)`: builds `mergedJson`
from `{}` by one `mergeStep` per catalog entry. -/
def mergeWithExistingData (dom : Dom) (formData : List FormField) (extractedJson : Rec) : Rec :=
  formData.foldl (mergeStep dom extractedJson) []

/-- The record key a catalog entry writes during merge: the group name for
radio/checkbox elements, the field id otherwise; none when the element is
not found. -/
def mergeKey (dom : Dom) (field : FormField) : Option String :=
  (getElementById dom field.id).map (fun el =>
    match el.type with
    | "radio" => el.name
    | "checkbox" => el.name
    | _ => field.id)

/-- The live-form fallback a merge write resolves to when the extracted
record has no truthy value for the field's key. -/
def mergeFallback (dom : Dom) (field : FormField) : JsVal :=
  match getElementById dom field.id with
  | none => JsVal.str ""
  | some el =>
    match el.type with
    | "radio" => JsVal.str (lastCheckedValue (getElementsByName dom el.name))
    | "checkbox" => JsVal.arr (checkedValues (checkboxesByName dom el.name))
    | _ => JsVal.str el.value

/-- The value that write stores (meaningless when the element is missing):
the truthy extracted value for the field's id, else the live fallback. -/
def mergeVal (dom : Dom) (extractedJson : Rec) (field : FormField) : JsVal :=
  jsOrVal (recGet extractedJson field.id) (mergeFallback dom field)

/-- Helper for the JS `includes` check: list version of `startsWith`. -/
def strStartsWithList : List Char → List Char → Bool
  | _, [] => true
  | [], _ :: _ => false
  | a :: as, b :: bs => a = b && strStartsWithList as bs

/-- Substring containment on character lists (JS `String.prototype.includes`). -/
def strHasSub : List Char → List Char → Bool
  | [], pat => pat.isEmpty
  | c :: t, pat => strStartsWithList (c :: t) pat || strHasSub t pat

/-- Evaluation of `v.includes(s)` for a JS value. -/
def jsIncludes : JsVal → String → Bool
  | .str s, v => strHasSub s.data v.data
  | .arr l, v => l.contains v

/-- Optional chaining `extractedJson[k]?.includes(v)` (missing → false). -/
def jsIncludesOpt : Option JsVal → String → Bool
  | none, _ => false
  | some w, v => jsIncludes w v

/-- JS whitespace for `String.prototype.trim` (the characters relevant to
form values). -/
def isJsSpace (c : Char) : Bool :=
  c = ' ' || c = '\t' || c = '\n' || c = '\r'

/-- Evaluation of `value.trim()`: strip leading and trailing whitespace. -/
def jsTrim (s : String) : String :=
  ⟨((s.data.dropWhile isJsSpace).reverse.dropWhile isJsSpace).reverse⟩

/-- The `{ missingFields, hasErrors }` object `checkMissingDetails` returns. -/
structure ValidationResult where
  missingFields : List String
  hasErrors : Bool
deriving DecidableEq, Repr

/-- One iteration of `checkMissingDetails`'s `formData.forEach`, threading
`(missingFields, hasErrors, dom)`, as the total projection of the step: on a
plain field whose looked-up value is an array, the JS throws a TypeError
(`value.trim` is not a function on arrays) — that failure path is modelled
faithfully by `cmdStepE` below; here the field is recorded as missing (so
this total model reports `hasErrors = true` wherever the JS would throw, and
the two agree on every other input — proved in `cmdStepE_agrees`). -/
def cmdStep (extractedJson : Rec) (st : List String × Bool × Dom) (f : FormField) :
    List String × Bool × Dom :=
  match getElementById st.2.2 f.id with
  | none => st
  | some fieldElement =>
    let fieldName := fieldElement.name
    match fieldElement.type with
    | "radio" =>
        let lookupVal := recGet extractedJson fieldName
        let isRadioFilled :=
          (getElementsByName st.2.2 fieldName).any
            (fun r => lookupVal = some (JsVal.str r.value))
        let dom1 := updateByName st.2.2 fieldName
          (fun r => if lookupVal = some (JsVal.str r.value) then { r with checked := true } else r)
        if isRadioFilled then
          (st.1, st.2.1, updateByName dom1 fieldName (fun r => { r with border := "" }))
        else
          (st.1 ++ [fieldName], true,
            updateByName dom1 fieldName (fun r => { r with border := "2px solid red" }))
    | "checkbox" =>
        let lookupVal := recGet extractedJson fieldName
        let isCheckboxFilled :=
          (checkboxesByName st.2.2 fieldName).any (fun cb => jsIncludesOpt lookupVal cb.value)
        let dom1 := updateCheckboxesByName st.2.2 fieldName
          (fun cb => if jsIncludesOpt lookupVal cb.value then { cb with checked := true } else cb)
        if isCheckboxFilled then
          (st.1, st.2.1, updateCheckboxesByName dom1 fieldName (fun cb => { cb with border := "" }))
        else
          (st.1 ++ [fieldName], true,
            updateCheckboxesByName dom1 fieldName
              (fun cb => { cb with border := "2px solid red" }))
    | _ =>
        let value :=
          match jsOrVal (recGet extractedJson f.id) (JsVal.str "") with
          | JsVal.str s => s
          | JsVal.arr _ => ""
        if jsTrim value = "" then
          (st.1 ++ [f.id], true,
            updateById st.2.2 f.id (fun el => { el with border := "2px solid red" }))
        else
          (st.1, st.2.1,
            updateById st.2.2 f.id (fun el => { el with value := value, border := "" }))

/-- Validation `checkMissingDetails(extractedJson, formData)`: fills/flags fields in the
live form and reports which are missing. -/
def checkMissingDetails (dom : Dom) (extractedJson : Rec) (formData : List FormField) :
    ValidationResult × Dom :=
  let st := formData.foldl (cmdStep extractedJson) ([], false, dom)
  ({ missingFields := st.1, hasErrors := st.2.1 }, st.2.2)

/-- One iteration of `checkMissingDetails`'s `formData.forEach` with the
failure path modelled faithfully: in the default branch the JS calls
`value.trim()` on `extractedJson[field.id] || ""`, and when that value is an
array (truthy, so the fallback does not apply) `.trim` is not a function — a
TypeError escapes.  The radio and checkbox branches cannot throw. -/
def cmdStepE (extractedJson : Rec) (st : List String × Bool × Dom) (f : FormField) :
    Except String (List String × Bool × Dom) :=
  match getElementById st.2.2 f.id with
  | none => Except.ok st
  | some fieldElement =>
    let fieldName := fieldElement.name
    match fieldElement.type with
    | "radio" =>
        let lookupVal := recGet extractedJson fieldName
        let isRadioFilled :=
          (getElementsByName st.2.2 fieldName).any
            (fun r => lookupVal = some (JsVal.str r.value))
        let dom1 := updateByName st.2.2 fieldName
          (fun r => if lookupVal = some (JsVal.str r.value) then { r with checked := true } else r)
        if isRadioFilled then
          Except.ok (st.1, st.2.1, updateByName dom1 fieldName (fun r => { r with border := "" }))
        else
          Except.ok (st.1 ++ [fieldName], true,
            updateByName dom1 fieldName (fun r => { r with border := "2px solid red" }))
    | "checkbox" =>
        let lookupVal := recGet extractedJson fieldName
        let isCheckboxFilled :=
          (checkboxesByName st.2.2 fieldName).any (fun cb => jsIncludesOpt lookupVal cb.value)
        let dom1 := updateCheckboxesByName st.2.2 fieldName
          (fun cb => if jsIncludesOpt lookupVal cb.value then { cb with checked := true } else cb)
        if isCheckboxFilled then
          Except.ok (st.1, st.2.1,
            updateCheckboxesByName dom1 fieldName (fun cb => { cb with border := "" }))
        else
          Except.ok (st.1 ++ [fieldName], true,
            updateCheckboxesByName dom1 fieldName
              (fun cb => { cb with border := "2px solid red" }))
    | _ =>
        match jsOrVal (recGet extractedJson f.id) (JsVal.str "") with
        | JsVal.str value =>
            if jsTrim value = "" then
              Except.ok (st.1 ++ [f.id], true,
                updateById st.2.2 f.id (fun el => { el with border := "2px solid red" }))
            else
              Except.ok (st.1, st.2.1,
                updateById st.2.2 f.id (fun el => { el with value := value, border := "" }))
        | JsVal.arr _ => Except.error "TypeError: value.trim is not a function"

/-- The `forEach` of `checkMissingDetails` with the TypeError propagating:
an exception aborts the iteration and escapes to the caller. -/
def cmdFoldE (extractedJson : Rec) :
    List FormField → (List String × Bool × Dom) → Except String (List String × Bool × Dom)
  | [], st => Except.ok st
  | f :: t, st =>
      match cmdStepE extractedJson st f with
      | Except.error msg => Except.error msg
      | Except.ok st' => cmdFoldE extractedJson t st'

/-- Validation `checkMissingDetails` with its one failure mode modelled
faithfully: returns the ValidationResult, or the TypeError raised the moment
a plain field's looked-up value is an array. -/
def checkMissingDetailsE (dom : Dom) (extractedJson : Rec) (formData : List FormField) :
    Except String (ValidationResult × Dom) :=
  match cmdFoldE extractedJson formData ([], false, dom) with
  | Except.error msg => Except.error msg
  | Except.ok st => Except.ok ({ missingFields := st.1, hasErrors := st.2.1 }, st.2.2)

/-- Guard `checkSourceText`: throws when `sourceText` is falsy. -/
def checkSourceText (sourceText : String) : Except String Unit :=
  if sourceText = "" then Except.error "sourceText cannot be null." else Except.ok ()

/-- Guards `validateInputs(apiKey, transcribedText, formData)`: the synchronous
guards at the top of `extractFormValues`.  (`Array.isArray` always holds in
the model; `!field.id` is the empty-id check.) -/
def validateInputs (apiKey transcribedText : String) (formData : List FormField) :
    Except String Unit :=
  if apiKey = "" then Except.error "API key is required."
  else if transcribedText = "" then Except.error "Source text is required."
  else if formData.any (fun f => f.id = "") then
    Except.error "Invalid formData: Must be an array of objects with \x27id\x27 properties."
  else Except.ok ()

/-- Adapter `extractFormValues(apiKey, transcribedText, formData, userPrompt)`:
validates its inputs, then performs the remote call; the call's outcome
(`makeApiCall` + `parseResponse`) is the `service` oracle, and its errors are
rethrown unchanged by the catch.  `userPrompt` only shapes the instruction
text, never the control flow.  (The packaged variants differ in how the API
key reaches this helper — explicit argument or embedded — so it is modelled
as an explicit parameter.) -/
def extractFormValues (apiKey transcribedText : String) (formData : List FormField)
    (userPrompt : Option String) (service : Except String Rec) : Except String Rec :=
  match validateInputs apiKey transcribedText formData with
  | Except.error e => Except.error e
  | Except.ok _ => service

/-- Outcome of one TTS synthesis/playback attempt, as observed by
`speakMessage`'s try block. -/
inductive TtsResult where
  | transportFail (status : Nat)
  | missingAudio
  | playFail
  | playOk
deriving DecidableEq, Repr

/-- The try block of `speakMessage`: each failure throws. -/
def speakAttempt : TtsResult → Except String Unit
  | .transportFail s => Except.error ("HTTP error! Status: " ++ toString s)
  | .missingAudio => Except.error "No audio content received from the API."
  | .playFail => Except.error "Audio playback failed."
  | .playOk => Except.ok ()

/-- Playback `speakMessage(text, ttsKey, languageCode)`: the whole body sits in a
try/catch whose catch only logs, so every outcome completes normally. -/
def speakMessage (text ttsKey languageCode : String) (r : TtsResult) : Except String Unit :=
  match speakAttempt r with
  | Except.ok _ => Except.ok ()
  | Except.error _ => Except.ok ()

/-- The locale welcome prompt of `fillFormByVoice`. -/
def welcomeMsg (languageCode : String) : String :=
  if languageCode = "en" then
    "Please provide the following details by speaking into the microphone."
  else
    "Bitte geben Sie die folgenden Angaben ein, indem Sie in das Mikrofon sprechen."

/-- The locale success prompt spoken before the success return. -/
def successMsg (languageCode : String) : String :=
  if languageCode = "en" then
    "Thank you for providing the information. Please confirm if the details are correct..."
  else
    "Vielen Dank f√ºr die Bereitstellung der Informationen..."

/-- The locale retry prompt spoken by the loop's catch. -/
def retryMsgV (languageCode : String) : String :=
  if languageCode = "en" then
    "Sorry, I didn\x27t get that. Please try again."
  else
    "Entschuldigung, das habe ich nicht verstanden. Bitte versuchen Sie es erneut."

/-- Builder `constructErrorMessage(languageCode)`. -/
def constructErrorMessage (languageCode : String) : String :=
  if languageCode = "en" then
    "The highlighted fields are missing. Please provide the missing details."
  else
    "Die markierten Felder fehlen. Bitte geben Sie die fehlenden Details an."

/-- The oracle inputs consumed by one turn of the voice loop: the transcript
`listenForSpeech` resolves with (empty on recognition failure/silence) and
the extraction service outcome for that turn. -/
structure Turn where
  transcript : String
  service : Except String Rec

/-- An observable action of the controller: a `statusCallback` snapshot or an
awaited `speakMessage` text.  (`speakMessage` never throws — proved below —
so recording the spoken text is a faithful rendering of the awaited call.) -/
inductive Ev where
  | status (isPlaying isRecording : Bool)
  | spoke (msg : String)
deriving DecidableEq, Repr

/-- The body of `fillFormByVoice`'s `while (true)` for one turn: the try
block (listen, extract, merge, validate, branch) and its catch.  Returns the
events emitted, the DOM after the turn, and `some mergedJson` exactly on the
success `return`. -/
def turnStep (apiKey : String) (userPrompt : Option String) (languageCode : String)
    (formData : List FormField) (dom : Dom) (t : Turn) : List Ev × Dom × Option Rec :=
  let listenEvs : List Ev := [Ev.status false true, Ev.status false false]
  match extractFormValues apiKey t.transcript formData userPrompt t.service with
  | Except.error _ =>
      (listenEvs ++ [Ev.status true false, Ev.spoke (retryMsgV languageCode),
        Ev.status false false], dom, none)
  | Except.ok extractedJson =>
      let mergedJson := mergeWithExistingData dom formData extractedJson
      let md := checkMissingDetails dom mergedJson formData
      if md.1.hasErrors then
        (listenEvs ++ [Ev.status true false, Ev.spoke (constructErrorMessage languageCode),
          Ev.status false false], md.2, none)
      else
        (listenEvs ++ [Ev.status true false, Ev.spoke (successMsg languageCode),
          Ev.status false false], md.2, some mergedJson)

/-- The `while (true)` loop, driven by a finite prefix of turn oracles (the
real loop is unbounded; an exhausted prefix models a session still running,
reported as no result). -/
def voiceLoop (apiKey : String) (userPrompt : Option String) (languageCode : String)
    (formData : List FormField) : Dom → List Turn → List Ev × Dom × Option Rec
  | dom, [] => ([], dom, none)
  | dom, t :: rest =>
      let s := turnStep apiKey userPrompt languageCode formData dom t
      match s.2.2 with
      | some _ => s
      | none =>
          let tail := voiceLoop apiKey userPrompt languageCode formData s.2.1 rest
          (s.1 ++ tail.1, tail.2)

/-- Controller `fillFormByVoice(formId, userPrompt, languageCode, statusCallback)`:
reads the catalog, plays the welcome prompt, then runs the loop. -/
def fillFormByVoice (apiKey : String) (userPrompt : Option String) (languageCode : String)
    (dom : Dom) (turns : List Turn) : List Ev × Dom × Option Rec :=
  let formData := extractFormIds dom
  let afterLoop := voiceLoop apiKey userPrompt languageCode formData dom turns
  ([Ev.status true false, Ev.spoke (welcomeMsg languageCode), Ev.status false false]
    ++ afterLoop.1, afterLoop.2)

/-- Entry point `fillFormByText(formId, sourceText)`: catalog, source-text guard,
extraction, fill/validate, then returns the extracted record (the toast in
`displayErrorMessage` is pure UI and not modelled). -/
def fillFormByText (apiKey : String) (dom : Dom) (sourceText : String)
    (service : Except String Rec) : Except String (Rec × Dom) :=
  let formData := extractFormIds dom
  match checkSourceText sourceText with
  | Except.error e => Except.error e
  | Except.ok _ =>
    match extractFormValues apiKey sourceText formData none service with
    | Except.error e => Except.error e
    | Except.ok extractedJson =>
      let missingDetails := checkMissingDetails dom extractedJson formData
      Except.ok (extractedJson, missingDetails.2)

instance {ε α : Type} [DecidableEq ε] [DecidableEq α] : DecidableEq (Except ε α) := fun a b =>
  match a, b with
  | Except.error x, Except.error y =>
      if h : x = y then Decidable.isTrue (by rw [h])
      else Decidable.isFalse (by intro q; injection q; contradiction)
  | Except.ok x, Except.ok y =>
      if h : x = y then Decidable.isTrue (by rw [h])
      else Decidable.isFalse (by intro q; injection q; contradiction)
  | Except.error _, Except.ok _ => Decidable.isFalse (by intro q; injection q)
  | Except.ok _, Except.error _ => Decidable.isFalse (by intro q; injection q)

/-! ### Record and merge lemmas -/

theorem recGet_recSet_self (r : Rec) (k : String) (v : JsVal) :
    recGet (recSet r k v) k = some v := by
  induction r with
  | nil => simp [recSet, recGet]
  | cons p t ih =>
      by_cases h : p.1 = k
      · simp [recSet, recGet, h]
      · simp [recSet, recGet, h, ih]

theorem recGet_recSet_ne (r : Rec) (k k' : String) (v : JsVal) (h : k ≠ k') :
    recGet (recSet r k v) k' = recGet r k' := by
  induction r with
  | nil => simp [recSet, recGet, h]
  | cons p t ih =>
      by_cases hp : p.1 = k
      · simp [recSet, recGet, hp, h]
      · simp only [recSet, hp, if_false, recGet]
        by_cases hp' : p.1 = k'
        · simp [hp']
        · simp [hp', ih]

/-- Last binding for a key in a write list. -/
def lookupLast : List (String × JsVal) → String → Option JsVal
  | [], _ => none
  | (k', v') :: t, k =>
    match lookupLast t k with
    | some v => some v
    | none => if k' = k then some v' else none

/-- Replay a list of object assignments. -/
def applySets (r : Rec) (l : List (String × JsVal)) : Rec :=
  l.foldl (fun acc p => recSet acc p.1 p.2) r

theorem applySets_nil (r : Rec) : applySets r [] = r := rfl

theorem applySets_cons (r : Rec) (p : String × JsVal) (l : List (String × JsVal)) :
    applySets r (p :: l) = applySets (recSet r p.1 p.2) l := rfl

theorem recGet_applySets_of_last {l : List (String × JsVal)} {k : String} {v : JsVal}
    (h : lookupLast l k = some v) (r : Rec) : recGet (applySets r l) k = some v := by
  induction l generalizing r with
  | nil => simp [lookupLast] at h
  | cons p t ih =>
      rw [applySets_cons]
      simp only [lookupLast] at h
      cases ht : lookupLast t k with
      | some w => rw [ht] at h; cases h; exact ih ht _
      | none =>
          rw [ht] at h
          by_cases hp : p.1 = k
        
          · cases l₂ : t with
            | nil =>
                simp [hp] at h
                cases h
                simp [l₂, applySets_nil, hp, recGet_recSet_self]
            | cons q t' =>
                rw [hp] at h
                simp at h
                cases h
                subst l₂
                have : ∀ (t : List (String × JsVal)) (r : Rec),
                    lookupLast t k = none →
                    recGet (applySets r t) k = recGet r k := by
                  intro t
                  induction t with
                  | nil => intro r _; rfl
                  | cons q t' ih' =>
                      intro r hnone
                      simp only [lookupLast] at hnone
                      cases hq : lookupLast t' k with
                      | some w => rw [hq] at hnone; cases hnone
                      | none =>
                          rw [hq] at hnone
                          have hq1 : q.1 ≠ k := by
                            intro hc
                            rw [if_pos hc] at hnone
                            cases hnone
                          rw [applySets_cons]
                          rw [ih' _ hq, recGet_recSet_ne _ _ _ _ hq1]
                rw [this _ _ ht]
                rw [hp]
                exact recGet_recSet_self _ _ _
          · simp [hp] at h

theorem recGet_applySets_of_none {l : List (String × JsVal)} {k : String}
    (h : lookupLast l k = none) (r : Rec) : recGet (applySets r l) k = recGet r k := by
  induction l generalizing r with
  | nil => rfl
  | cons p t ih =>
      simp only [lookupLast] at h
      cases ht : lookupLast t k with
      | some w => rw [ht] at h; cases h
      | none =>
          rw [ht] at h
          have hp : p.1 ≠ k := by
            intro hc
            rw [if_pos hc] at h
            cases h
          rw [applySets_cons, ih ht, recGet_recSet_ne _ _ _ _ hp]

/-- The sequence of object assignments `mergeWithExistingData` performs. -/
def mergeWrites (dom : Dom) (extractedJson : Rec) (formData : List FormField) :
    List (String × JsVal) :=
  formData.filterMap (fun f => (mergeKey dom f).map (fun k => (k, mergeVal dom extractedJson f)))

theorem mergeStep_eq (dom : Dom) (e acc : Rec) (f : FormField) :
    mergeStep dom e acc f =
      match mergeKey dom f with
      | none => acc
      | some k => recSet acc k (mergeVal dom e f) := by
  unfold mergeStep mergeKey mergeVal mergeFallback
  cases h : getElementById dom f.id with
  | none => rfl
  | some el =>
      simp only [Option.map_some']
      split
      · next heq => simp [heq]
      · next heq => simp [heq]
      · rfl

theorem mergeFold_eq_applySets (dom : Dom) (e : Rec) (formData : List FormField) :
    ∀ acc : Rec, formData.foldl (mergeStep dom e) acc = applySets acc (mergeWrites dom e formData) := by
  induction formData with
  | nil => intro acc; rfl
  | cons f t ih =>
      intro acc
      rw [List.foldl_cons, ih, mergeStep_eq]
      cases hk : mergeKey dom f with
      | none => simp [mergeWrites, List.filterMap_cons, hk]
      | some k =>
          simp only [mergeWrites, List.filterMap_cons, hk, Option.map_some']
          rfl

theorem merge_eq_applySets (dom : Dom) (formData : List FormField) (e : Rec) :
    mergeWithExistingData dom formData e = applySets [] (mergeWrites dom e formData) := by
  unfold mergeWithExistingData
  exact mergeFold_eq_applySets dom e formData []

theorem mem_mergeWrites {dom : Dom} {e : Rec} {formData : List FormField}
    {k : String} {v : JsVal} :
    (k, v) ∈ mergeWrites dom e formData ↔
      ∃ f ∈ formData, mergeKey dom f = some k ∧ v = mergeVal dom e f := by
  simp only [mergeWrites, List.mem_filterMap, Option.map_eq_some']
  constructor
  · rintro ⟨f, hf, k', hk', hkv⟩
    cases hkv
    exact ⟨f, hf, hk', rfl⟩
  · rintro ⟨f, hf, hk, hv⟩
    exact ⟨f, hf, k, hk, by rw [hv]⟩

theorem lookupLast_of_consistent {l : List (String × JsVal)} {k : String} {v : JsVal}
    (hmem : (k, v) ∈ l) (hcons : ∀ v', (k, v') ∈ l → v' = v) :
    lookupLast l k = some v := by
  induction l with
  | nil => cases hmem
  | cons p t ih =>
      simp only [lookupLast]
      cases ht : lookupLast t k with
      | some w =>
          have hw : (k, w) ∈ t := by
            clear ih hmem hcons
            induction t generalizing w with
            | nil => cases ht
            | cons q t' ih' =>
                simp only [lookupLast] at ht
                cases hq : lookupLast t' k with
                | some u =>
                    rw [hq] at ht
                    cases ht
                    exact List.mem_cons_of_mem _ (ih' _ hq)
                | none =>
                    rw [hq] at ht
                    by_cases hqk : q.1 = k
                    · rw [if_pos hqk] at ht
                      cases ht
                      exact List.mem_cons.mpr (Or.inl (by rw [← hqk]))
                    · rw [if_neg hqk] at ht
                      cases ht
          rw [hcons w (List.mem_cons_of_mem _ hw)]
      | none =>
          rcases List.mem_cons.mp hmem with hp | hp
          · rw [← hp]
            simp
          · exfalso
            have : ∀ (t : List (String × JsVal)), (k, v) ∈ t → lookupLast t k ≠ none := by
              intro t' hmem'
              induction t' with
              | nil => cases hmem'
              | cons q t'' ih'' =>
                  simp only [lookupLast]
                  cases hq : lookupLast t'' k with
                  | some u => simp
                  | none =>
                      rcases List.mem_cons.mp hmem' with hh | hh
                      · rw [← hh]
                        simp
                      · exact absurd hq (ih'' hh)
            exact this t hp ht

theorem mergeVal_as_jsOrVal (dom : Dom) (f : FormField) (e : Rec) :
    mergeVal dom e f = jsOrVal (recGet e f.id) (mergeFallback dom f) := rfl

theorem mergeKey_determines_id {dom : Dom} {formData : List FormField} {f : FormField}
    {k : String}
    (hGroup : ∀ g ∈ formData, ∀ el, getElementById dom g.id = some el →
      el.type = "radio" ∨ el.type = "checkbox" → el.name = g.id)
    (hf : f ∈ formData) (hk : mergeKey dom f = some k) : k = f.id := by
  unfold mergeKey at hk
  rw [Option.map_eq_some'] at hk
  rcases hk with ⟨el, hel, hk⟩
  revert hk
  split
  · intro hk; rw [← hk]; exact hGroup f hf el hel (Or.inl (by assumption))
  · intro hk; rw [← hk]; exact hGroup f hf el hel (Or.inr (by assumption))
  · intro hk; rw [← hk]

theorem mergeVal_congr_id {dom : Dom} {e : Rec} {f g : FormField} (h : f.id = g.id) :
    mergeVal dom e f = mergeVal dom e g := by
  unfold mergeVal mergeFallback
  rw [h]

theorem recGet_merge_of_unique_writer {dom : Dom} {formData : List FormField} {e : Rec}
    {k : String} {v : JsVal}
    (hmem : (k, v) ∈ mergeWrites dom e formData)
    (hcons : ∀ v', (k, v') ∈ mergeWrites dom e formData → v' = v) :
    recGet (mergeWithExistingData dom formData e) k = some v := by
  rw [merge_eq_applySets]
  exact recGet_applySets_of_last (lookupLast_of_consistent hmem hcons) []

theorem mergeKey_plain {dom : Dom} {f : FormField} {el : Elem}
    (hel : getElementById dom f.id = some el)
    (hr : el.type ≠ "radio") (hc : el.type ≠ "checkbox") :
    mergeKey dom f = some f.id := by
  unfold mergeKey
  rw [hel, Option.map_some']
  split
  · next heq => exact absurd heq hr
  · next heq => exact absurd heq hc
  · rfl

theorem mergeKey_radio {dom : Dom} {f : FormField} {el : Elem}
    (hel : getElementById dom f.id = some el) (ht : el.type = "radio") :
    mergeKey dom f = some el.name := by
  unfold mergeKey
  rw [hel, Option.map_some']
  simp [ht]

theorem mergeFallback_plain {dom : Dom} {f : FormField} {el : Elem}
    (hel : getElementById dom f.id = some el)
    (hr : el.type ≠ "radio") (hc : el.type ≠ "checkbox") :
    mergeFallback dom f = JsVal.str el.value := by
  unfold mergeFallback
  simp only [hel]

theorem mergeFallback_radio {dom : Dom} {f : FormField} {el : Elem}
    (hel : getElementById dom f.id = some el) (ht : el.type = "radio") :
    mergeFallback dom f = JsVal.str (lastCheckedValue (getElementsByName dom el.name)) := by
  unfold mergeFallback
  simp only [hel, ht]

/-- C3: for every catalog and extracted record, merge resolves a plain
(non-grouped) field by the fallback order (a) truthy value present in the
extracted record under the field's key, else (b) the field's live current
value, else (c) the empty string — (b)/(c) being exactly the element's
current value, which is `""` when unset.  The uniqueness hypothesis `hU`
says no other catalog entry writes a conflicting value to this key. -/
theorem merge_plain_fallback_order
    (dom : Dom) (formData : List FormField) (e : Rec) (f : FormField) (el : Elem)
    (hf : f ∈ formData)
    (hel : getElementById dom f.id = some el)
    (hr : el.type ≠ "radio") (hc : el.type ≠ "checkbox")
    (hU : ∀ g ∈ formData, mergeKey dom g = some f.id → mergeVal dom e g = mergeVal dom e f) :
    (∀ v, recGet e f.id = some v → v.truthy = true →
        recGet (mergeWithExistingData dom formData e) f.id = some v) ∧
    ((∀ v, recGet e f.id = some v → v.truthy = false) →
        recGet (mergeWithExistingData dom formData e) f.id = some (JsVal.str el.value)) := by
  have hkey : mergeKey dom f = some f.id := mergeKey_plain hel hr hc
  have hmem : (f.id, mergeVal dom e f) ∈ mergeWrites dom e formData :=
    mem_mergeWrites.mpr ⟨f, hf, hkey, rfl⟩
  have hcons : ∀ v', (f.id, v') ∈ mergeWrites dom e formData → v' = mergeVal dom e f := by
    intro v' hmem'
    rcases mem_mergeWrites.mp hmem' with ⟨g, hg, hkg, hv⟩
    rw [hv]
    exact hU g hg hkg
  have hmain : recGet (mergeWithExistingData dom formData e) f.id = some (mergeVal dom e f) :=
    recGet_merge_of_unique_writer hmem hcons
  have hfb : mergeFallback dom f = JsVal.str el.value := mergeFallback_plain hel hr hc
  constructor
  · intro v hv ht
    rw [hmain]
    unfold mergeVal
    rw [hv]
    simp [jsOrVal, ht]
  · intro hfalsy
    rw [hmain]
    unfold mergeVal
    cases hv : recGet e f.id with
    | none => rw [hfb]; rfl
    | some v =>
        have hft := hfalsy v hv
        simp [jsOrVal, hft, hfb]

def domPlainW : Dom := [⟨"email", "email", "text", "a@b.com", false, ""⟩]

def ePlainW : Rec := [("name", JsVal.str "John Doe")]

/-- Witness for C3 at the spec's own example: prior current value
`email:"a@b.com"`, extracted record lacking the `email` key — the merged
email is the prior value. -/
theorem merge_plain_fallback_order_witness :
    recGet (mergeWithExistingData domPlainW (extractFormIds domPlainW) ePlainW) "email"
      = some (JsVal.str "a@b.com") := by
  have h := merge_plain_fallback_order domPlainW (extractFormIds domPlainW) ePlainW
    ⟨"email", "a@b.com"⟩ ⟨"email", "email", "text", "a@b.com", false, ""⟩
    (by decide) (by decide) (by decide) (by decide)
    (by
      intro g hg hk
      have : g = ⟨"email", "a@b.com"⟩ := by
        simpa [extractFormIds, domPlainW] using hg
      rw [this])
  exact h.2 (by intro v hv; exact Option.noConfusion hv)

def domRadioMismatch : Dom :=
  [⟨"genderMale", "gender", "radio", "male", true, ""⟩,
   ⟨"", "gender", "radio", "female", false, ""⟩]

/-- C4 counterexample: a radio group "gender" whose catalog entry carries the
input id "genderMale" (≠ group name).  With extracted `{gender: "female"}`
the merge looks the extracted record up under the id, misses, and falls back
to the currently checked radio — yielding "male", not "female" as the claim
requires. -/
theorem merge_radio_group_name_counterexample :
    recGet (mergeWithExistingData domRadioMismatch (extractFormIds domRadioMismatch)
        [("gender", JsVal.str "female")]) "gender" = some (JsVal.str "male")
    ∧ JsVal.str "male" ≠ JsVal.str "female" := by
  constructor
  · decide
  · decide

/-- C4 (amended): merge stores a radio group's resolved value under the group
name, but looks the extracted record up under the catalog entry's input id;
when a truthy extracted value exists under that id, the merged group value is
it, regardless of which radio is currently checked (the DOM's checked flags
are universally quantified away inside `dom`). -/
theorem merge_radio_by_field_id
    (dom : Dom) (formData : List FormField) (e : Rec) (f : FormField) (el : Elem) (v : JsVal)
    (hf : f ∈ formData)
    (hel : getElementById dom f.id = some el) (ht : el.type = "radio")
    (hv : recGet e f.id = some v) (htr : v.truthy = true)
    (hU : ∀ g ∈ formData, mergeKey dom g = some el.name → mergeVal dom e g = mergeVal dom e f) :
    recGet (mergeWithExistingData dom formData e) el.name = some v := by
  have hkey : mergeKey dom f = some el.name := mergeKey_radio hel ht
  have hval : mergeVal dom e f = v := by
    unfold mergeVal
    rw [hv]
    simp [jsOrVal, htr]
  have hmem : (el.name, mergeVal dom e f) ∈ mergeWrites dom e formData :=
    mem_mergeWrites.mpr ⟨f, hf, hkey, rfl⟩
  have hcons : ∀ v', (el.name, v') ∈ mergeWrites dom e formData → v' = mergeVal dom e f := by
    intro v' hmem'
    rcases mem_mergeWrites.mp hmem' with ⟨g, hg, hkg, hvg⟩
    rw [hvg]
    exact hU g hg hkg
  rw [← hval]
  exact recGet_merge_of_unique_writer hmem hcons

def domRadioAligned : Dom :=
  [⟨"gender", "gender", "radio", "male", true, ""⟩,
   ⟨"", "gender", "radio", "female", false, ""⟩]

/-- Witness for the amended C4: with the catalog entry's id equal to the
group name "gender" and extracted `{gender: "female"}`, the merged group
value is "female" even though the "male" radio is checked. -/
theorem merge_radio_by_field_id_witness :
    recGet (mergeWithExistingData domRadioAligned (extractFormIds domRadioAligned)
        [("gender", JsVal.str "female")]) "gender" = some (JsVal.str "female") := by
  exact merge_radio_by_field_id domRadioAligned (extractFormIds domRadioAligned)
    [("gender", JsVal.str "female")] ⟨"gender", "male"⟩
    ⟨"gender", "gender", "radio", "male", true, ""⟩ (JsVal.str "female")
    (by decide) (by decide) (by decide) (by decide) (by decide)
    (by
      intro g hg hk
      have : g = ⟨"gender", "male"⟩ := by
        simpa [extractFormIds, domRadioAligned] using hg
      rw [this])

/-- C9 counterexample: with a radio group whose catalog id "genderMale"
differs from the group name "gender", the merged record
`m = {gender: "female"}` is complete (every value truthy), yet merging `m`
with itself as the extracted input yields `{gender: "male"}` (the id lookup
misses and the checked radio wins) — merge is not idempotent as claimed. -/
theorem merge_idem_counterexample :
    (mergeWithExistingData domRadioMismatch (extractFormIds domRadioMismatch)
        [("genderMale", JsVal.str "female")]).all (fun p => p.2.truthy) = true
    ∧ mergeWithExistingData domRadioMismatch (extractFormIds domRadioMismatch)
        (mergeWithExistingData domRadioMismatch (extractFormIds domRadioMismatch)
          [("genderMale", JsVal.str "female")])
      ≠ mergeWithExistingData domRadioMismatch (extractFormIds domRadioMismatch)
        [("genderMale", JsVal.str "female")] := by
  constructor
  · decide
  · decide

/-- C9 (amended): merge is idempotent for already-complete merged records on
catalogs whose grouped (radio/checkbox) entries carry the group name as their
id — the condition the counterexample shows is needed.  `hComplete` says the
merged record is complete: every resolved value is truthy. -/
theorem merge_idem_complete
    (dom : Dom) (formData : List FormField) (e : Rec)
    (hGroup : ∀ g ∈ formData, ∀ el, getElementById dom g.id = some el →
      el.type = "radio" ∨ el.type = "checkbox" → el.name = g.id)
    (hComplete : ∀ k v, recGet (mergeWithExistingData dom formData e) k = some v →
      v.truthy = true) :
    mergeWithExistingData dom formData (mergeWithExistingData dom formData e)
      = mergeWithExistingData dom formData e := by
  have hcons : ∀ k v v', (k, v) ∈ mergeWrites dom e formData →
      (k, v') ∈ mergeWrites dom e formData → v' = v := by
    intro k v v' hv hv'
    rcases mem_mergeWrites.mp hv with ⟨f, hf, hkf, hvf⟩
    rcases mem_mergeWrites.mp hv' with ⟨g, hg, hkg, hvg⟩
    have hkf' : k = f.id := mergeKey_determines_id hGroup hf hkf
    have hkg' : k = g.id := mergeKey_determines_id hGroup hg hkg
    rw [hvf, hvg]
    exact mergeVal_congr_id (by rw [← hkg', ← hkf'])
  have hget : ∀ k v, (k, v) ∈ mergeWrites dom e formData →
      recGet (mergeWithExistingData dom formData e) k = some v := by
    intro k v hv
    exact recGet_merge_of_unique_writer hv (fun v' hv' => hcons k v v' hv hv')
  have hW : mergeWrites dom (mergeWithExistingData dom formData e) formData
      = mergeWrites dom e formData := by
    unfold mergeWrites
    apply List.filterMap_congr
    intro g hg
    cases hk : mergeKey dom g with
    | none => simp [hk]
    | some k =>
        simp only [hk, Option.map_some']
        have hkid : k = g.id := mergeKey_determines_id hGroup hg hk
        have hmem : (k, mergeVal dom e g) ∈ mergeWrites dom e formData :=
          mem_mergeWrites.mpr ⟨g, hg, hk, rfl⟩
        have hgm : recGet (mergeWithExistingData dom formData e) k = some (mergeVal dom e g) :=
          hget _ _ hmem
        have htr : (mergeVal dom e g).truthy = true := hComplete _ _ hgm
        have : mergeVal dom (mergeWithExistingData dom formData e) g = mergeVal dom e g := by
          have h1 : mergeVal dom (mergeWithExistingData dom formData e) g
              = jsOrVal (recGet (mergeWithExistingData dom formData e) g.id)
                (mergeFallback dom g) := rfl
          rw [h1, ← hkid, hgm]
          simp [jsOrVal, htr]
        rw [this]
  rw [merge_eq_applySets dom formData (mergeWithExistingData dom formData e), hW,
    ← merge_eq_applySets]

def domRadioIdem : Dom := [⟨"gender", "gender", "radio", "male", true, ""⟩]

/-- Witness for the amended C9: a catalog whose radio entry's id equals its
group name; merging the complete merged record `{gender: "male"}` with
itself reproduces it. -/
theorem merge_idem_complete_witness :
    mergeWithExistingData domRadioIdem (extractFormIds domRadioIdem)
        (mergeWithExistingData domRadioIdem (extractFormIds domRadioIdem) [])
      = mergeWithExistingData domRadioIdem (extractFormIds domRadioIdem) [] := by
  apply merge_idem_complete
  · intro g hg el hel htype
    have hgid : g = ⟨"gender", "male"⟩ := by
      simpa [extractFormIds, domRadioIdem] using hg
    subst hgid
    have h2 : (⟨"gender", "gender", "radio", "male", true, ""⟩ : Elem) = el := by
      simpa [getElementById, domRadioIdem] using hel
    rw [← h2]
  · intro k v hv
    have hm : mergeWithExistingData domRadioIdem (extractFormIds domRadioIdem) []
        = [("gender", JsVal.str "male")] := by decide
    rw [hm] at hv
    simp only [recGet] at hv
    split at hv
    · injection hv with h
      rw [← h]
      decide
    · exact Option.noConfusion hv

theorem cmdStep_shape (e : Rec) (st : List String × Bool × Dom) (f : FormField) :
    (∃ d, cmdStep e st f = (st.1, st.2.1, d)) ∨
    (∃ x d, cmdStep e st f = (st.1 ++ [x], true, d)) := by
  unfold cmdStep
  cases h : getElementById st.2.2 f.id with
  | none => exact Or.inl ⟨st.2.2, rfl⟩
  | some el =>
      dsimp only
      split
      · split
        · exact Or.inl ⟨_, rfl⟩
        · exact Or.inr ⟨_, _, rfl⟩
      · split
        · exact Or.inl ⟨_, rfl⟩
        · exact Or.inr ⟨_, _, rfl⟩
      · split
        · exact Or.inr ⟨_, _, rfl⟩
        · exact Or.inl ⟨_, rfl⟩

theorem cmd_hasErrors_iff (e : Rec) :
    ∀ (formData : List FormField) (st : List String × Bool × Dom),
      (st.2.1 = true ↔ st.1 ≠ []) →
      ((formData.foldl (cmdStep e) st).2.1 = true ↔ (formData.foldl (cmdStep e) st).1 ≠ []) := by
  intro fd
  induction fd with
  | nil => intro st h; exact h
  | cons f t ih =>
      intro st h
      rw [List.foldl_cons]
      apply ih
      rcases cmdStep_shape e st f with ⟨d, hd⟩ | ⟨x, d, hd⟩
      · rw [hd]; exact h
      · rw [hd]
        constructor
        · intro _; simp
        · intro _; rfl

/-- C8: for every catalog, live form and record, the ValidationResult from
`checkMissingDetails` satisfies `hasErrors == (missingFields.length > 0)`:
`hasErrors` is true exactly when the missing-field list is non-empty. -/
theorem validate_hasErrors_iff_missing (dom : Dom) (e : Rec) (formData : List FormField) :
    (checkMissingDetails dom e formData).1.hasErrors = true
      ↔ 0 < (checkMissingDetails dom e formData).1.missingFields.length := by
  have h := cmd_hasErrors_iff e formData ([], false, dom) (by simp)
  change (formData.foldl (cmdStep e) ([], false, dom)).2.1 = true
    ↔ 0 < (formData.foldl (cmdStep e) ([], false, dom)).1.length
  rw [h]
  exact List.length_pos.symm

/-- The immutable identity of an element: id, name and input type.
`checkMissingDetails` may rewrite values, checked flags and borders, but
never these. -/
def elemShape (el : Elem) : String × String × String := (el.id, el.name, el.type)

theorem shape_updateById (dom : Dom) (i : String) (f : Elem → Elem)
    (h : ∀ el, elemShape (f el) = elemShape el) :
    (updateById dom i f).map elemShape = dom.map elemShape := by
  induction dom with
  | nil => rfl
  | cons el t ih =>
      unfold updateById
      by_cases he : el.id = i
      · simp [he, h el]
      · simp [he, ih]

theorem shape_updateByName (dom : Dom) (n : String) (f : Elem → Elem)
    (h : ∀ el, elemShape (f el) = elemShape el) :
    (updateByName dom n f).map elemShape = dom.map elemShape := by
  unfold updateByName
  rw [List.map_map]
  apply List.map_congr_left
  intro el _
  simp only [Function.comp]
  split
  · exact h el
  · rfl

theorem shape_updateCheckboxesByName (dom : Dom) (n : String) (f : Elem → Elem)
    (h : ∀ el, elemShape (f el) = elemShape el) :
    (updateCheckboxesByName dom n f).map elemShape = dom.map elemShape := by
  unfold updateCheckboxesByName
  rw [List.map_map]
  apply List.map_congr_left
  intro el _
  simp only [Function.comp]
  split
  · exact h el
  · rfl

theorem shape_cmdStep (e : Rec) (st : List String × Bool × Dom) (f : FormField) :
    (cmdStep e st f).2.2.map elemShape = st.2.2.map elemShape := by
  unfold cmdStep
  cases h : getElementById st.2.2 f.id with
  | none => rfl
  | some el =>
      dsimp only
      split
      · split <;>
          · dsimp only
            rw [shape_updateByName _ _ _ (by intro a; rfl),
              shape_updateByName _ _ _ (by intro a; split <;> rfl)]
      · split <;>
          · dsimp only
            rw [shape_updateCheckboxesByName _ _ _ (by intro a; rfl),
              shape_updateCheckboxesByName _ _ _ (by intro a; split <;> rfl)]
      · split <;>
          · dsimp only
            rw [shape_updateById _ _ _ (by intro a; rfl)]

theorem cmd_shape_fold (e : Rec) :
    ∀ (formData : List FormField) (st : List String × Bool × Dom),
      ((formData.foldl (cmdStep e) st).2.2).map elemShape = st.2.2.map elemShape := by
  intro fd
  induction fd with
  | nil => intro st; rfl
  | cons f t ih =>
      intro st
      rw [List.foldl_cons, ih, shape_cmdStep]

theorem getElementById_shape : ∀ (dom1 dom2 : Dom) (i : String),
    dom1.map elemShape = dom2.map elemShape →
    (getElementById dom1 i).map elemShape = (getElementById dom2 i).map elemShape := by
  intro dom1
  induction dom1 with
  | nil =>
      intro dom2 i h
      cases dom2 with
      | nil => rfl
      | cons b t2 => simp at h
  | cons a t1 ih =>
      intro dom2 i h
      cases dom2 with
      | nil => simp at h
      | cons b t2 =>
          simp only [List.map_cons, List.cons.injEq] at h
          obtain ⟨hab, ht⟩ := h
          unfold getElementById
          have hid : a.id = b.id := congrArg (fun x => x.1) hab
          by_cases hia : a.id = i
          · rw [if_pos hia, if_pos (hid ▸ hia)]
            simp [hab]
          · rw [if_neg hia, if_neg (hid ▸ hia)]
            exact ih t2 i ht

theorem jsOrVal_arr_of_recGet {e : Rec} {k : String} {l : List String}
    (h : jsOrVal (recGet e k) (JsVal.str "") = JsVal.arr l) :
    recGet e k = some (JsVal.arr l) := by
  cases hv : recGet e k with
  | none =>
      rw [hv] at h
      exact absurd h (by simp [jsOrVal])
  | some w =>
      rw [hv] at h
      cases w with
      | str s =>
          by_cases ht : (JsVal.str s).truthy = true
          · simp [jsOrVal, ht] at h
          · simp [jsOrVal, ht] at h
      | arr l2 =>
          simp [jsOrVal, JsVal.truthy] at h
          rw [h]

theorem cmdStepE_agrees {e : Rec} {st : List String × Bool × Dom} {f : FormField}
    (hna : ∀ el, getElementById st.2.2 f.id = some el →
      el.type ≠ "radio" → el.type ≠ "checkbox" →
      ∀ l, recGet e f.id ≠ some (JsVal.arr l)) :
    cmdStepE e st f = Except.ok (cmdStep e st f) := by
  unfold cmdStepE cmdStep
  cases h : getElementById st.2.2 f.id with
  | none => rfl
  | some el =>
      dsimp only
      split
      · split <;> rfl
      · split <;> rfl
      · next h1 h2 =>
          cases hv : jsOrVal (recGet e f.id) (JsVal.str "") with
          | str s => simp only [hv]; split <;> rfl
          | arr l => exact absurd (jsOrVal_arr_of_recGet hv) (hna el h h1 h2 l)

theorem cmdFoldE_agrees (e : Rec) (dom0 : Dom) :
    ∀ (formData : List FormField) (st : List String × Bool × Dom),
      st.2.2.map elemShape = dom0.map elemShape →
      (∀ f ∈ formData, ∀ el, getElementById dom0 f.id = some el →
        el.type ≠ "radio" → el.type ≠ "checkbox" →
        ∀ l, recGet e f.id ≠ some (JsVal.arr l)) →
      cmdFoldE e formData st = Except.ok (formData.foldl (cmdStep e) st) := by
  intro fd
  induction fd with
  | nil => intro st _ _; rfl
  | cons f t ih =>
      intro st hshape hcond
      have hstep : cmdStepE e st f = Except.ok (cmdStep e st f) := by
        apply cmdStepE_agrees
        intro el hel hr hc l
        have hsh2 := getElementById_shape st.2.2 dom0 f.id hshape
        rw [hel] at hsh2
        cases h0 : getElementById dom0 f.id with
        | none =>
            rw [h0] at hsh2
            exact absurd hsh2 (by simp)
        | some el0 =>
            rw [h0] at hsh2
            simp only [Option.map_some'] at hsh2
            injection hsh2 with hsh
            have htype : el.type = el0.type := congrArg (fun x => x.2.2) hsh
            exact hcond f (List.mem_cons_self f t) el0 h0 (htype ▸ hr) (htype ▸ hc) l
      unfold cmdFoldE
      rw [hstep, List.foldl_cons]
      exact ih (cmdStep e st f)
        (by rw [shape_cmdStep]; exact hshape)
        (fun g hg => hcond g (List.mem_cons_of_mem f hg))

/-- C7 (amended): `checkMissingDetails` has exactly one failure mode — the
TypeError the default branch's `value.trim()` raises when a plain
(non-radio/checkbox) field's looked-up value is an array.  Whenever no plain
field's key resolves to an array, it returns a ValidationResult (the fallible
embedding agrees with the total one), and it never adds, removes or
re-identifies form elements — ids, names, input types and the element count
are preserved — but, contrary to the claim, it does write values, checked
flags and borders (see the counterexample). -/
theorem validate_total_unless_array (dom : Dom) (e : Rec) (formData : List FormField)
    (hnoarr : ∀ f ∈ formData, ∀ el, getElementById dom f.id = some el →
      el.type ≠ "radio" → el.type ≠ "checkbox" →
      ∀ l, recGet e f.id ≠ some (JsVal.arr l)) :
    checkMissingDetailsE dom e formData
        = Except.ok (checkMissingDetails dom e formData)
    ∧ ((checkMissingDetails dom e formData).2).map elemShape = dom.map elemShape
    ∧ ((checkMissingDetails dom e formData).2).length = dom.length := by
  have hmap : ((checkMissingDetails dom e formData).2).map elemShape = dom.map elemShape := by
    change ((formData.foldl (cmdStep e) ([], false, dom)).2.2).map elemShape = dom.map elemShape
    exact cmd_shape_fold e formData ([], false, dom)
  refine ⟨?_, hmap, ?_⟩
  · unfold checkMissingDetailsE
    rw [cmdFoldE_agrees e dom formData ([], false, dom) rfl hnoarr]
    rfl
  · have := congrArg List.length hmap
    simpa using this

def domPlainC7 : Dom := [⟨"email", "email", "text", "a@b.com", false, ""⟩]

/-- Witness for the amended C7 at a concrete record with no array-valued
plain field: the fallible and total embeddings agree and the element
structure is preserved. -/
theorem validate_total_unless_array_witness :
    checkMissingDetailsE domPlainC7 [("name", JsVal.str "John Doe")]
        (extractFormIds domPlainC7)
      = Except.ok (checkMissingDetails domPlainC7 [("name", JsVal.str "John Doe")]
        (extractFormIds domPlainC7))
    ∧ ((checkMissingDetails domPlainC7 [("name", JsVal.str "John Doe")]
        (extractFormIds domPlainC7)).2).map elemShape = domPlainC7.map elemShape
    ∧ ((checkMissingDetails domPlainC7 [("name", JsVal.str "John Doe")]
        (extractFormIds domPlainC7)).2).length = domPlainC7.length :=
  validate_total_unless_array domPlainC7 [("name", JsVal.str "John Doe")]
    (extractFormIds domPlainC7)
    (by
      intro f hf el hel hr hc l hne
      have hfid : f = ⟨"email", "a@b.com"⟩ := by
        simpa [extractFormIds, domPlainC7] using hf
      rw [hfid] at hne
      simp [recGet] at hne)

/-- C7 counterexample, refuting both halves of the claim.  Writes: on a text
field "email" with current value `""` and extracted `"x@y.z"`,
`checkMissingDetails` fills the field, so the DOM after differs from the DOM
before.  Failure mode: on a text field "note" whose record value is the
array `["a"]`, the faithful embedding raises the TypeError that
`value.trim()` produces in JS instead of returning a ValidationResult. -/
theorem validate_writes_and_throws_counterexample :
    (checkMissingDetails [⟨"email", "email", "text", "", false, ""⟩]
        [("email", JsVal.str "x@y.z")]
        (extractFormIds [⟨"email", "email", "text", "", false, ""⟩])).2
      ≠ [⟨"email", "email", "text", "", false, ""⟩]
    ∧ checkMissingDetailsE [⟨"note", "note", "text", "", false, ""⟩]
        [("note", JsVal.arr ["a"])]
        (extractFormIds [⟨"note", "note", "text", "", false, ""⟩])
      = Except.error "TypeError: value.trim is not a function" := by
  constructor
  · decide
  · decide

/-- C5 counterexample: when audio playback fails, `speakMessage`'s try block
raises ("Audio playback failed."), but the surrounding catch swallows it and
the call completes normally — no PlaybackError surfaces to the caller. -/
theorem speak_playback_error_swallowed :
    speakAttempt TtsResult.playFail = Except.error "Audio playback failed."
    ∧ speakMessage "hello" "tts-key" "en" TtsResult.playFail = Except.ok () := by
  constructor
  · rfl
  · rfl

/-- C5 (amended): `speakMessage` never fails: whatever the synthesis/playback
outcome (transport failure, missing audio content, playback failure), the
internal error is caught and logged and the call completes normally; only the
`playOk` outcome lets the try block itself succeed. -/
theorem speak_always_completes (text ttsKey languageCode : String) (r : TtsResult) :
    speakMessage text ttsKey languageCode r = Except.ok ()
    ∧ (speakAttempt r = Except.ok () ↔ r = TtsResult.playOk) := by
  constructor
  · cases r <;> rfl
  · cases r <;> simp [speakAttempt]

/-- C6 counterexample: with catalog `[email]` whose live value is "a@b.com"
and an extraction yielding the empty record, `fillFormByText` returns the raw
empty extracted record — not the MergedRecord, which would contain
`email: "a@b.com"` (and an entry for every catalog field). -/
theorem text_fill_returns_raw_counterexample :
    (fillFormByText "k" [⟨"email", "email", "text", "a@b.com", false, ""⟩] "hello"
        (Except.ok [])).map (fun p => p.1) = Except.ok ([] : Rec)
    ∧ mergeWithExistingData [⟨"email", "email", "text", "a@b.com", false, ""⟩]
        (extractFormIds [⟨"email", "email", "text", "a@b.com", false, ""⟩]) []
      = [("email", JsVal.str "a@b.com")]
    ∧ ([] : Rec) ≠ [("email", JsVal.str "a@b.com")] := by
  refine ⟨?_, ?_, ?_⟩
  · decide
  · decide
  · decide

/-- C6 (amended): on success `fillFormByText` returns exactly the raw
extracted record produced by the extraction service (after the fill/validate
pass has mutated the form), never invoking `mergeWithExistingData` — the
merge happens only on the voice path. -/
theorem text_fill_returns_extracted (apiKey : String) (dom : Dom) (sourceText : String)
    (service : Except String Rec) (r : Rec) (dom' : Dom)
    (h : fillFormByText apiKey dom sourceText service = Except.ok (r, dom')) :
    service = Except.ok r
    ∧ dom' = (checkMissingDetails dom r (extractFormIds dom)).2 := by
  unfold fillFormByText extractFormValues at h
  dsimp only at h
  split at h
  · exact Except.noConfusion h
  · split at h
    · exact Except.noConfusion h
    · next extracted heq =>
        injection h with h2
        injection h2 with h3 h4
        split at heq
        · exact Except.noConfusion heq
        · subst h3
          exact ⟨heq, h4.symm⟩

def domTextW : Dom := [⟨"name", "name", "text", "", false, ""⟩]

/-- Witness for the amended C6: a concrete successful text fill returns the
service's record unchanged. -/
theorem text_fill_returns_extracted_witness :
    (Except.ok [("name", JsVal.str "John")] : Except String Rec)
        = Except.ok [("name", JsVal.str "John")]
    ∧ (checkMissingDetails domTextW [("name", JsVal.str "John")]
        (extractFormIds domTextW)).2
      = (checkMissingDetails domTextW [("name", JsVal.str "John")]
        (extractFormIds domTextW)).2 := by
  have h := text_fill_returns_extracted "k" domTextW "My name is John"
    (Except.ok [("name", JsVal.str "John")]) [("name", JsVal.str "John")]
    ((checkMissingDetails domTextW [("name", JsVal.str "John")] (extractFormIds domTextW)).2)
    (by decide)
  exact ⟨h.1, by rw [h.2]⟩

theorem voiceLoop_cons_eq (apiKey : String) (userPrompt : Option String)
    (languageCode : String) (formData : List FormField) (dom : Dom) (t : Turn)
    (rest : List Turn) :
    voiceLoop apiKey userPrompt languageCode formData dom (t :: rest)
      = (match (turnStep apiKey userPrompt languageCode formData dom t).2.2 with
         | some _ => turnStep apiKey userPrompt languageCode formData dom t
         | none =>
             ((turnStep apiKey userPrompt languageCode formData dom t).1
               ++ (voiceLoop apiKey userPrompt languageCode formData
                    (turnStep apiKey userPrompt languageCode formData dom t).2.1 rest).1,
              (voiceLoop apiKey userPrompt languageCode formData
                (turnStep apiKey userPrompt languageCode formData dom t).2.1 rest).2)) := rfl

theorem turnStep_success {apiKey : String} {userPrompt : Option String}
    {languageCode : String} {formData : List FormField} {dom : Dom} {t : Turn}
    {evs : List Ev} {dom' : Dom} {r : Rec}
    (h : turnStep apiKey userPrompt languageCode formData dom t = (evs, dom', some r)) :
    ∃ extracted,
      extractFormValues apiKey t.transcript formData userPrompt t.service = Except.ok extracted
      ∧ r = mergeWithExistingData dom formData extracted
      ∧ (checkMissingDetails dom r formData).1.hasErrors = false
      ∧ dom' = (checkMissingDetails dom r formData).2
      ∧ evs = [Ev.status false true, Ev.status false false, Ev.status true false,
          Ev.spoke (successMsg languageCode), Ev.status false false] := by
  unfold turnStep at h
  split at h
  · have h3 := congrArg (fun x => x.2.2) h
    exact absurd h3 (by simp)
  · next extracted heq =>
      dsimp only at h
      split at h
      · have h3 := congrArg (fun x => x.2.2) h
        exact absurd h3 (by simp)
      · next hne =>
          have h1 := congrArg (fun x => x.1) h
          have h2 := congrArg (fun x => x.2.1) h
          have h3 := congrArg (fun x => x.2.2) h
          dsimp only at h1 h2 h3
          injection h3 with h3
          subst h3
          refine ⟨extracted, heq, rfl, by simpa using hne, h2.symm, h1.symm⟩

theorem voiceLoop_success {apiKey : String} {userPrompt : Option String}
    {languageCode : String} {formData : List FormField} :
    ∀ (turns : List Turn) (dom : Dom) (evs : List Ev) (domF : Dom) (r : Rec),
      voiceLoop apiKey userPrompt languageCode formData dom turns = (evs, domF, some r) →
      ∃ d extracted,
        r = mergeWithExistingData d formData extracted
        ∧ (checkMissingDetails d r formData).1.hasErrors = false
        ∧ ∃ p, evs = p ++ [Ev.status true false, Ev.spoke (successMsg languageCode),
            Ev.status false false] := by
  intro turns
  induction turns with
  | nil =>
      intro dom evs domF r h
      have h3 := congrArg (fun x => x.2.2) h
      exact absurd h3 (by simp [voiceLoop])
  | cons t rest ih =>
      intro dom evs domF r h
      rw [voiceLoop_cons_eq] at h
      split at h
      · rcases turnStep_success h with ⟨extracted, hok, hr, hval, hdom, hevs⟩
        exact ⟨dom, extracted, hr, hval,
          [Ev.status false true, Ev.status false false], by rw [hevs]; rfl⟩
      · have h1 := congrArg (fun x => x.1) h
        have h2 := congrArg (fun x => x.2.1) h
        have h3 := congrArg (fun x => x.2.2) h
        dsimp only at h1 h2 h3
        have htail := ih (turnStep apiKey userPrompt languageCode formData dom t).2.1
          (voiceLoop apiKey userPrompt languageCode formData
            (turnStep apiKey userPrompt languageCode formData dom t).2.1 rest).1
          (voiceLoop apiKey userPrompt languageCode formData
            (turnStep apiKey userPrompt languageCode formData dom t).2.1 rest).2.1
          r (by rw [← h3])
        rcases htail with ⟨d, extracted, hr2, hval, p, hp⟩
        refine ⟨d, extracted, hr2, hval,
          (turnStep apiKey userPrompt languageCode formData dom t).1 ++ p, ?_⟩
        rw [← h1, hp, List.append_assoc]

/-- C1: the voice controller's only success exit.  Part one: whenever
`fillFormByVoice` returns a record, that record is the turn's MergedRecord,
its validation reported `hasErrors = false`, and the locale success prompt
was spoken (between two status snapshots) immediately before returning.
Part two: a turn whose extraction succeeds but whose validation reports
`hasErrors = true` instead speaks the locale error prompt and re-enters the
loop (returns to listening) on the remaining turns. -/
theorem voice_success_exit_only_on_valid (apiKey : String) (userPrompt : Option String)
    (languageCode : String) :
    (∀ (dom : Dom) (turns : List Turn) (evs : List Ev) (domF : Dom) (r : Rec),
      fillFormByVoice apiKey userPrompt languageCode dom turns = (evs, domF, some r) →
      ∃ d extracted,
        r = mergeWithExistingData d (extractFormIds dom) extracted
        ∧ (checkMissingDetails d r (extractFormIds dom)).1.hasErrors = false
        ∧ ∃ p, evs = p ++ [Ev.status true false, Ev.spoke (successMsg languageCode),
            Ev.status false false])
    ∧ (∀ (formData : List FormField) (dom : Dom) (t : Turn) (rest : List Turn)
        (extracted : Rec),
      extractFormValues apiKey t.transcript formData userPrompt t.service
          = Except.ok extracted →
      (checkMissingDetails dom (mergeWithExistingData dom formData extracted)
          formData).1.hasErrors = true →
      voiceLoop apiKey userPrompt languageCode formData dom (t :: rest)
        = ([Ev.status false true, Ev.status false false, Ev.status true false,
            Ev.spoke (constructErrorMessage languageCode), Ev.status false false]
            ++ (voiceLoop apiKey userPrompt languageCode formData
                (checkMissingDetails dom (mergeWithExistingData dom formData extracted)
                  formData).2 rest).1,
          (voiceLoop apiKey userPrompt languageCode formData
            (checkMissingDetails dom (mergeWithExistingData dom formData extracted)
              formData).2 rest).2)) := by
  constructor
  · intro dom turns evs domF r h
    unfold fillFormByVoice at h
    dsimp only at h
    have h1 := congrArg (fun x => x.1) h
    have h2 := congrArg (fun x => x.2.1) h
    have h3 := congrArg (fun x => x.2.2) h
    dsimp only at h1 h2 h3
    have hloop := voiceLoop_success turns dom
      (voiceLoop apiKey userPrompt languageCode (extractFormIds dom) dom turns).1
      (voiceLoop apiKey userPrompt languageCode (extractFormIds dom) dom turns).2.1
      r (by rw [← h3])
    rcases hloop with ⟨d, extracted, hr2, hval, p, hp⟩
    refine ⟨d, extracted, hr2, hval,
      [Ev.status true false, Ev.spoke (welcomeMsg languageCode), Ev.status false false]
        ++ p, ?_⟩
    rw [← h1, hp, List.append_assoc]
  · intro formData dom t rest extracted hok herr
    have hstep : turnStep apiKey userPrompt languageCode formData dom t
        = ([Ev.status false true, Ev.status false false, Ev.status true false,
            Ev.spoke (constructErrorMessage languageCode), Ev.status false false],
          (checkMissingDetails dom (mergeWithExistingData dom formData extracted)
            formData).2, none) := by
      unfold turnStep
      rw [hok]
      dsimp only
      rw [if_pos herr]
      rfl
    rw [voiceLoop_cons_eq]
    rw [hstep]

def domVoiceW : Dom := [⟨"name", "name", "text", "", false, ""⟩]

/-- Witness for C1 at a concrete successful session: one turn whose
extraction yields `{name: "John"}` fills the only field, validation passes,
and the controller returns the merged record right after speaking the
success prompt. -/
theorem voice_success_exit_only_on_valid_witness :
    ∃ d extracted,
      [("name", JsVal.str "John")]
          = mergeWithExistingData d (extractFormIds domVoiceW) extracted
      ∧ (checkMissingDetails d [("name", JsVal.str "John")]
          (extractFormIds domVoiceW)).1.hasErrors = false
      ∧ ∃ p, [Ev.status true false, Ev.spoke (welcomeMsg "en"), Ev.status false false,
          Ev.status false true, Ev.status false false, Ev.status true false,
          Ev.spoke (successMsg "en"), Ev.status false false]
        = p ++ [Ev.status true false, Ev.spoke (successMsg "en"), Ev.status false false] :=
  (voice_success_exit_only_on_valid "k" none "en").1 domVoiceW
    [⟨"My name is John", Except.ok [("name", JsVal.str "John")]⟩]
    [Ev.status true false, Ev.spoke (welcomeMsg "en"), Ev.status false false,
      Ev.status false true, Ev.status false false, Ev.status true false,
      Ev.spoke (successMsg "en"), Ev.status false false]
    [⟨"name", "name", "text", "John", false, ""⟩]
    [("name", JsVal.str "John")]
    (by decide)

/-- C2: a turn whose transcript is the empty string does not crash the
controller and propagates no exception: the empty transcript flows into
`extractFormValues`, whose input validation rejects it, the loop's catch
speaks the locale retry notice, and the loop re-enters listening on the
remaining turns with the form untouched. -/
theorem empty_transcript_retry (apiKey : String) (userPrompt : Option String)
    (languageCode : String) (formData : List FormField) (dom : Dom) (t : Turn)
    (rest : List Turn) (hempty : t.transcript = "") :
    (∃ msg, extractFormValues apiKey t.transcript formData userPrompt t.service
        = Except.error msg)
    ∧ voiceLoop apiKey userPrompt languageCode formData dom (t :: rest)
      = ([Ev.status false true, Ev.status false false, Ev.status true false,
          Ev.spoke (retryMsgV languageCode), Ev.status false false]
          ++ (voiceLoop apiKey userPrompt languageCode formData dom rest).1,
         (voiceLoop apiKey userPrompt languageCode formData dom rest).2) := by
  have herr : ∃ msg, extractFormValues apiKey t.transcript formData userPrompt t.service
      = Except.error msg := by
    unfold extractFormValues validateInputs
    rw [hempty]
    by_cases hk : apiKey = ""
    · refine ⟨"API key is required.", ?_⟩
      rw [if_pos hk]
    · refine ⟨"Source text is required.", ?_⟩
      rw [if_neg hk, if_pos rfl]
  obtain ⟨msg, hmsg⟩ := herr
  have hstep : turnStep apiKey userPrompt languageCode formData dom t
      = ([Ev.status false true, Ev.status false false, Ev.status true false,
          Ev.spoke (retryMsgV languageCode), Ev.status false false], dom, none) := by
    unfold turnStep
    rw [hmsg]
    rfl
  refine ⟨⟨msg, hmsg⟩, ?_⟩
  rw [voiceLoop_cons_eq, hstep]

def tEmptyW : Turn := ⟨"", Except.ok []⟩

/-- Witness for C2: an empty transcript on the first turn reduces to the
retry-spoken continuation, with the extraction reporting an error. -/
theorem empty_transcript_retry_witness :
    (∃ msg, extractFormValues "k" tEmptyW.transcript ([] : List FormField) none
        tEmptyW.service = Except.error msg)
    ∧ voiceLoop "k" none "en" [] [] [tEmptyW]
      = ([Ev.status false true, Ev.status false false, Ev.status true false,
          Ev.spoke (retryMsgV "en"), Ev.status false false]
          ++ (voiceLoop "k" none "en" [] [] []).1,
         (voiceLoop "k" none "en" [] [] []).2) :=
  empty_transcript_retry "k" none "en" [] [] tEmptyW [] (by rfl)

theorem turnStep_status_exclusive (apiKey : String) (userPrompt : Option String)
    (languageCode : String) (formData : List FormField) (dom : Dom) (t : Turn)
    (p q : Bool)
    (hmem : Ev.status p q ∈ (turnStep apiKey userPrompt languageCode formData dom t).1) :
    ¬(p = true ∧ q = true) := by
  rintro ⟨hp, hq⟩
  subst hp
  subst hq
  unfold turnStep at hmem
  split at hmem
  · simp at hmem
  · dsimp only at hmem
    split at hmem
    · simp at hmem
    · simp at hmem

theorem voiceLoop_status_exclusive (apiKey : String) (userPrompt : Option String)
    (languageCode : String) (formData : List FormField) :
    ∀ (turns : List Turn) (dom : Dom) (p q : Bool),
      Ev.status p q ∈ (voiceLoop apiKey userPrompt languageCode formData dom turns).1 →
      ¬(p = true ∧ q = true) := by
  intro turns
  induction turns with
  | nil =>
      intro dom p q hmem
      simp [voiceLoop] at hmem
  | cons t rest ih =>
      intro dom p q hmem
      rw [voiceLoop_cons_eq] at hmem
      split at hmem
      · exact turnStep_status_exclusive apiKey userPrompt languageCode formData dom t p q hmem
      · dsimp only at hmem
        rw [List.mem_append] at hmem
        rcases hmem with hs | ht
        · exact turnStep_status_exclusive apiKey userPrompt languageCode formData dom t p q hs
        · exact ih _ p q ht

/-- C10: every status snapshot emitted to the statusCallback during a voice
session has at most one of `isPlaying`/`isRecording` true — never both. -/
theorem status_flags_mutually_exclusive (apiKey : String) (userPrompt : Option String)
    (languageCode : String) (dom : Dom) (turns : List Turn) (p q : Bool)
    (hmem : Ev.status p q ∈ (fillFormByVoice apiKey userPrompt languageCode dom turns).1) :
    ¬(p = true ∧ q = true) := by
  unfold fillFormByVoice at hmem
  dsimp only at hmem
  rw [List.mem_append] at hmem
  rcases hmem with hg | hl
  · rintro ⟨hp, hq⟩
    subst hp
    subst hq
    simp at hg
  · exact voiceLoop_status_exclusive apiKey userPrompt languageCode (extractFormIds dom)
      turns dom p q hl

/-- Witness for C10: a concrete emitted snapshot (`isPlaying` during the
welcome prompt) and the exclusivity the theorem gives for it. -/
theorem status_flags_mutually_exclusive_witness :
    Ev.status true false ∈ (fillFormByVoice "k" none "en" [] []).1
    ∧ ¬(true = true ∧ false = true) :=
  ⟨by decide, status_flags_mutually_exclusive "k" none "en" [] [] true false (by decide)⟩
